import Mathlib

/-!
# Verification of the `patma` pattern-matching engine

A shallow embedding of `patma.py` (the pattern-matching library: eight
pattern node variants with a recursive `match` evaluator and a recursive
`bindings` analyzer) together with proofs of the specified properties.

Python runtime values are modelled by the inductive type `Value`; Python
classes/types by `PyType`.  Python's `==` is modelled by `pyEq` (numeric
tower: `1 == 1.0 == True`), `isinstance` by `pyIsInstance` (with
`bool ⊆ int`), and the library's `_is_instance` helper by `isInstance`
(additionally pretending `int` subclasses `float`).

`match` can raise in Python, so it is embedded in `Except PyError`;
`bindings` raises `BindingsError` subclasses, embedded in
`Except BindingsError`.
-/

namespace Patma

/-- Python exception classes that can arise during `Pattern.match`. -/
inductive PyError where
  | typeError
  | keyError
  | runtimeError
deriving DecidableEq, Repr

/-- Python type tags used by the model: the builtin types occurring in the
library plus (dataclass) classes identified by name. -/
inductive PyType where
  | int
  | bool
  | float
  | str
  | bytes
  | list
  | tuple
  | dict
  | noneType
  | cls (name : String)
deriving DecidableEq, Repr

/-- Python runtime values.  A dataclass instance is modelled by `record
clsName fieldNames attrs`, where `fieldNames` is the class's declared
dataclass-field order (what `dataclasses.fields` reports) and `attrs` is
the instance's attribute dictionary (what `getattr` consults) — an
instance may lack an attribute for a declared field. -/
inductive Value where
  | int (n : Int)
  | bool (b : Bool)
  | float (q : Rat)
  | str (s : String)
  | bytes (bs : List Nat)
  | none
  | list (xs : List Value)
  | tuple (xs : List Value)
  | dict (entries : List (Value × Value))
  | record (clsName : String) (fieldNames : List String) (attrs : List (String × Value))

/-- Python `type(x)`: the runtime type tag of a value. -/
def typeOf : Value → PyType
  | .int _ => .int
  | .bool _ => .bool
  | .float _ => .float
  | .str _ => .str
  | .bytes _ => .bytes
  | .none => .noneType
  | .list _ => .list
  | .tuple _ => .tuple
  | .dict _ => .dict
  | .record c _ _ => .cls c

/-- The numeric view of a value: Python compares `bool`, `int` and `float`
on the numeric tower (`True == 1 == 1.0`). -/
def numView : Value → Option Rat
  | .int n => some (n : Rat)
  | .bool b => some (if b then 1 else 0)
  | .float q => some q
  | _ => Option.none

mutual

/-- Python `==` on values: numeric-tower comparison when both operands are
numeric, structural comparison otherwise.  (`list == tuple` is `False` in
Python, as here.)  Dataclass equality requires the same class and equal
field values; in this model attribute lists are compared pointwise in
declaration order, and dict equality is key-set plus per-key value
equality, order-insensitive, as in Python. -/
def pyEq : Value → Value → Bool
  | x, y =>
    match numView x, numView y with
    | some a, some b => a == b
    | _, _ =>
      match x, y with
      | .str s, .str t => s == t
      | .bytes a, .bytes b => a == b
      | .none, .none => true
      | .list xs, .list ys => pyEqList xs ys
      | .tuple xs, .tuple ys => pyEqList xs ys
      | .dict d, .dict e => d.length == e.length && pyEqSubDict d e
      | .record c fns attrs, .record c' fns' attrs' =>
        c == c' && fns == fns' && pyEqAttrs attrs attrs'
      | _, _ => false
termination_by x y => sizeOf x + sizeOf y

/-- Elementwise Python `==` on sequences of values. -/
def pyEqList : List Value → List Value → Bool
  | [], [] => true
  | x :: xs, y :: ys => pyEq x y && pyEqList xs ys
  | _, _ => false
termination_by xs ys => sizeOf xs + sizeOf ys

/-- Every key of `d` is present in `e` with a `==`-equal value. -/
def pyEqSubDict : List (Value × Value) → List (Value × Value) → Bool
  | [], _ => true
  | (k, v) :: d, e => pyEqKeyVal k v e && pyEqSubDict d e
termination_by d e => sizeOf d + sizeOf e

/-- Key `k` occurs in `e` with value `==`-equal to `v`. -/
def pyEqKeyVal : Value → Value → List (Value × Value) → Bool
  | _, _, [] => false
  | k, v, (k', v') :: e => (pyEq k k' && pyEq v v') || pyEqKeyVal k v e
termination_by k v e => sizeOf k + sizeOf v + sizeOf e

/-- Pointwise equality of attribute lists (name and value). -/
def pyEqAttrs : List (String × Value) → List (String × Value) → Bool
  | [], [] => true
  | (n, v) :: a, (n', v') :: b => n == n' && pyEq v v' && pyEqAttrs a b
  | _, _ => false
termination_by a b => sizeOf a + sizeOf b

end

/-- Python `isinstance(x, t)` for the modelled types.  `bool` is a subclass
of `int` in Python; no other subclass relations are modelled. -/
def pyIsInstance (x : Value) (t : PyType) : Bool :=
  typeOf x == t || (typeOf x == .bool && t == .int)

/-- The helper `_is_instance(x, t)` (patma.py lines 115–120): like `isinstance` but
pretend `int` subclasses `float`. -/
def isInstance (x : Value) (t : PyType) : Bool :=
  pyIsInstance x t || (t == .float && pyIsInstance x .int)

/-- Python `isinstance(x, cabc.Sequence)`: lists, tuples, strings and byte strings
are the `Sequence` instances in this model. -/
def isPySequence : Value → Bool
  | .list _ | .tuple _ | .str _ | .bytes _ => true
  | _ => false

/-- Python `isinstance(x, (str, bytes))`: the text/byte-string check used by
`SequencePattern.match` to exclude text. -/
def isText : Value → Bool
  | .str _ | .bytes _ => true
  | _ => false

/-- The items of a `Sequence` value (iteration order).  A string iterates
as its one-character strings, a byte string as its integers. -/
def seqItems : Value → List Value
  | .list xs | .tuple xs => xs
  | .str s => s.toList.map (fun c => .str c.toString)
  | .bytes bs => bs.map (fun b => .int b)
  | _ => []

/-- Python `isinstance(x, Mapping)`: dicts are the `Mapping` instances. -/
def isPyMapping : Value → Bool
  | .dict _ => true
  | _ => false

/-- The entry list of a dict value. -/
def dictEntries : Value → List (Value × Value)
  | .dict d => d
  | _ => []

/-- The pattern tree (patma.py lines 41–468): one constructor per
`Pattern` subclass, with the same field names.  `MappingPattern`'s keys
are constants (arbitrary values); `InstancePattern` carries its class,
positional sub-patterns and keyword sub-patterns. -/
inductive Pattern where
  | ConstantPattern (constant : Value)
  | AlternativesPattern (patterns : List Pattern)
  | VariablePattern (name : String)
  | AnnotatedPattern (pattern : Pattern) (cls : PyType)
  | SequencePattern (patterns : List Pattern)
  | MappingPattern (patterns : List (Value × Pattern))
  | InstancePattern (cls : PyType) (posargs : List Pattern) (kwargs : List (String × Pattern))
  | WalrusPattern (name : String) (pattern : Pattern)

/-- A binding result: the Python dict mapping variable names to values,
as an insertion-ordered association list with unique keys. -/
abbrev Bindings := List (String × Value)

/-- Python `d[k] = v` on a bindings dict: overwrite in place if the key is
present, append otherwise. -/
def dictSet (d : Bindings) (k : String) (v : Value) : Bindings :=
  if d.any (fun kv => kv.1 == k) then
    d.map (fun kv => if kv.1 == k then (k, v) else kv)
  else d ++ [(k, v)]

/-- Python `d.update(u)` on bindings dicts. -/
def dictUpdate (d u : Bindings) : Bindings :=
  u.foldl (fun acc kv => dictSet acc kv.1 kv.2) d

/-- Python `x[key]` on a dict's entry list: the value stored under the
first `==`-equal key, raising `KeyError` when absent. -/
def getItem : List (Value × Value) → Value → Except PyError Value
  | [], _ => .error .keyError
  | (k, v) :: d, key => if pyEq key k then .ok v else getItem d key

/-- Attribute lookup in an instance attribute list. -/
def lookupAttr : List (String × Value) → String → Option Value
  | [], _ => Option.none
  | (n, v) :: rest, name => if n == name then some v else lookupAttr rest name

/-- Python `getattr(x, name, missing)`: `some` the attribute value when present,
`Option.none` (the `missing` sentinel) otherwise.  Only records carry
attributes in this model. -/
def getAttr : Value → String → Option Value
  | .record _ _ attrs, name => lookupAttr attrs name
  | _, _ => Option.none

/-- Python `dataclasses.fields(x)`: the declared field names of a dataclass
instance; raises `TypeError` for any non-dataclass value. -/
def dataclassFields : Value → Except PyError (List String)
  | .record _ fns _ => .ok fns
  | _ => .error .typeError

/-- The `try: fields = dataclasses.fields(x) / except RuntimeError:
fields = ()` of `InstancePattern.match` (patma.py lines 362–365): only
`RuntimeError` is caught and replaced by the empty field tuple. -/
def fieldsTry (x : Value) : Except PyError (List String) :=
  match dataclassFields x with
  | .error .runtimeError => .ok []
  | r => r

mutual

/-- The evaluator `Pattern.match(x)` for every variant, one equation per subclass's
`match` method.  A normal no-match is `.ok Option.none`; a successful
match is `.ok (some bindings)`; an uncaught Python exception is
`.error`. -/
def matchP : Pattern → Value → Except PyError (Option Bindings)
  | .ConstantPattern c, x =>
      -- ConstantPattern.match (lines 132–135)
      if isInstance x (typeOf c) && pyEq x c then .ok (some []) else .ok Option.none
  | .AlternativesPattern ps, x =>
      -- AlternativesPattern.match (lines 158–163)
      matchAlts ps x
  | .VariablePattern name, x =>
      -- VariablePattern.match (lines 194–195): always `{self.name: x}`
      .ok (some [(name, x)])
  | .AnnotatedPattern p cls, x =>
      -- AnnotatedPattern.match (lines 230–233)
      if isInstance x cls then matchP p x else .ok Option.none
  | .SequencePattern ps, x =>
      -- SequencePattern.match (lines 254–267)
      if isPySequence x && !isText x && (seqItems x).length == ps.length then
        matchSeq ps (seqItems x) []
      else .ok Option.none
  | .MappingPattern entries, x =>
      -- MappingPattern.match (lines 296–309)
      if isPyMapping x then matchMap entries (dictEntries x) []
      else .ok Option.none
  | .InstancePattern cls posargs kwargs, x =>
      -- InstancePattern.match (lines 358–391)
      if isInstance x cls then
        match fieldsTry x with
        | .error e => .error e
        | .ok fields =>
          if fields.length < posargs.length then
            .ok Option.none  -- more positional patterns than fields
          else
            match matchZip fields posargs x [] with
            | .error e => .error e
            | .ok Option.none => .ok Option.none
            | .ok (some acc) => matchKw kwargs x acc
      else .ok Option.none
  | .WalrusPattern name p, x =>
      -- WalrusPattern.match (lines 453–457): `match[self.name] = x`
      match matchP p x with
      | .error e => .error e
      | .ok Option.none => .ok Option.none
      | .ok (some m) => .ok (some (dictSet m name x))
termination_by p _ => sizeOf p

/-- The arm loop of `AlternativesPattern.match`: first non-`None` result
wins; `None` when the arms are exhausted. -/
def matchAlts : List Pattern → Value → Except PyError (Option Bindings)
  | [], _ => .ok Option.none
  | p :: rest, x =>
      match matchP p x with
      | .error e => .error e
      | .ok (some m) => .ok (some m)
      | .ok Option.none => matchAlts rest x
termination_by ps _ => sizeOf ps

/-- The `zip(self.patterns, x)` loop of `SequencePattern.match`:
positional recursion threading the `ms` dict via `update`. -/
def matchSeq : List Pattern → List Value → Bindings → Except PyError (Option Bindings)
  | pattern :: rest, item :: items, ms =>
      match matchP pattern item with
      | .error e => .error e
      | .ok Option.none => .ok Option.none
      | .ok (some m) => matchSeq rest items (dictUpdate ms m)
  | _, _, ms => .ok (some ms)
termination_by ps _ _ => sizeOf ps

/-- The key loop of `MappingPattern.match`: `x[key]` under
`try/except KeyError` (a missing key is a no-match), then the value is
matched and the `ms` dict updated. -/
def matchMap : List (Value × Pattern) → List (Value × Value) → Bindings →
    Except PyError (Option Bindings)
  | [], _, ms => .ok (some ms)
  | (key, pattern) :: rest, d, ms =>
      match getItem d key with
      | .error .keyError => .ok Option.none  -- `except KeyError: return None`
      | .error e => .error e
      | .ok value =>
        match matchP pattern value with
        | .error e => .error e
        | .ok Option.none => .ok Option.none
        | .ok (some m) => matchMap rest d (dictUpdate ms m)
termination_by entries _ _ => sizeOf entries

/-- The `zip(fields, self.posargs)` loop of `InstancePattern.match`: each
field's attribute is fetched with a `missing` sentinel default — absence
is a no-match, a present (even falsy) value is matched recursively. -/
def matchZip : List String → List Pattern → Value → Bindings →
    Except PyError (Option Bindings)
  | fieldName :: fields, pattern :: rest, x, ms =>
      match getAttr x fieldName with
      | Option.none => .ok Option.none  -- `value is missing`: attribute not set
      | some value =>
        match matchP pattern value with
        | .error e => .error e
        | .ok Option.none => .ok Option.none
        | .ok (some m) => matchZip fields rest x (dictUpdate ms m)
  | _, _, _, ms => .ok (some ms)
termination_by _ ps _ _ => sizeOf ps

/-- The `self.kwargs.items()` loop of `InstancePattern.match`, same
attribute protocol as the positional loop. -/
def matchKw : List (String × Pattern) → Value → Bindings →
    Except PyError (Option Bindings)
  | [], _, ms => .ok (some ms)
  | (name, pattern) :: rest, x, ms =>
      match getAttr x name with
      | Option.none => .ok Option.none  -- attribute not set
      | some value =>
        match matchP pattern value with
        | .error e => .error e
        | .ok Option.none => .ok Option.none
        | .ok (some m) => matchKw rest x (dictUpdate ms m)
termination_by kws _ _ => sizeOf kws

end

/-- The `BindingsError` hierarchy (patma.py lines 23–38), with payloads
modelling the diagnostic content of each raise site:
`inconsistentBindings i first other diff` is the `InconsistentBindings`
raised for arm `i` of an alternation (the message carries arm 0's set,
arm `i`'s set and their symmetric difference `b ^ result`);
`duplicateBindings kind names` is the `DuplicateBindings` raised by a
sequence/mapping/instance pattern, naming the repeated names `b & result`;
`duplicateBindingsWalrus` is the payload-free `DuplicateBindings` of
`WalrusPattern.bindings`. -/
inductive BindingsError where
  | inconsistentBindings (armIndex : Nat) (first other diff : Finset String)
  | duplicateBindings (kind : String) (names : Finset String)
  | duplicateBindingsWalrus
deriving DecidableEq

/-- Whether a `BindingsError` is (an instance of the Python class)
`DuplicateBindings`. -/
def BindingsError.isDuplicate : BindingsError → Bool
  | .duplicateBindings _ _ => true
  | .duplicateBindingsWalrus => true
  | _ => false

mutual

/-- The analyzer `Pattern.bindings(strict)` for every variant, one equation per
subclass's `bindings` method.  The result is the Python set of bound
names; a raised `BindingsError` is `.error`. -/
def bindings : Pattern → Bool → Except BindingsError (Finset String)
  | .ConstantPattern _, _ =>
      -- ConstantPattern.bindings (lines 145–146)
      .ok ∅
  | .AlternativesPattern ps, strict =>
      -- AlternativesPattern.bindings (lines 168–181)
      match ps with
      | [] => .ok ∅  -- `if not self.patterns: return set()`
      | p :: rest =>
        match bindings p strict with  -- `result = self.patterns[0].bindings(strict)`
        | .error e => .error e
        | .ok result => bindingsAlts rest strict 1 result
  | .VariablePattern name, _ =>
      -- VariablePattern.bindings (lines 200–204)
      .ok (if name == "_" then ∅ else {name})
  | .AnnotatedPattern p _, strict =>
      -- AnnotatedPattern.bindings (lines 239–240)
      bindings p strict
  | .SequencePattern ps, strict =>
      -- SequencePattern.bindings (lines 274–283)
      bindingsFold ps strict "sequence" ∅
  | .MappingPattern entries, strict =>
      -- MappingPattern.bindings (lines 319–328)
      bindingsFoldV entries strict ∅
  | .InstancePattern _ posargs kwargs, strict =>
      -- InstancePattern.bindings (lines 429–438):
      -- one loop over `itertools.chain(self.posargs, self.kwargs.values())`
      match bindingsFold posargs strict "instance" ∅ with
      | .error e => .error e
      | .ok result => bindingsFoldK kwargs strict result
  | .WalrusPattern name p, strict =>
      -- WalrusPattern.bindings (lines 462–468)
      match bindings p strict with
      | .error e => .error e
      | .ok result =>
        if name != "_" then
          if strict = true ∧ name ∈ result then .error .duplicateBindingsWalrus
          else .ok (result ∪ {name})
        else .ok result
termination_by p _ => sizeOf p

/-- The arm loop of `AlternativesPattern.bindings` over arms `1..`.
Note the source calls `p.bindings()` on these arms — `strict` defaults
to `True` there — while the consistency check itself is guarded by the
caller's `strict`. -/
def bindingsAlts : List Pattern → Bool → Nat → Finset String →
    Except BindingsError (Finset String)
  | [], _, _, result => .ok result
  | p :: rest, strict, i, result =>
      match bindings p true with  -- `b = p.bindings()` (line 173)
      | .error e => .error e
      | .ok b =>
        if strict = true ∧ b ≠ result then
          .error (.inconsistentBindings i result b ((b \ result) ∪ (result \ b)))
        else bindingsAlts rest strict (i + 1) (result ∪ b)
termination_by ps _ _ _ => sizeOf ps

/-- The child loop shared by `SequencePattern.bindings` and (for the
positional part) `InstancePattern.bindings`: union the children's name
sets while checking, under `strict`, that each child's set is disjoint
from the running union. -/
def bindingsFold : List Pattern → Bool → String → Finset String →
    Except BindingsError (Finset String)
  | [], _, _, result => .ok result
  | p :: rest, strict, kind, result =>
      match bindings p strict with
      | .error e => .error e
      | .ok b =>
        if strict = true ∧ (b ∩ result).Nonempty then
          .error (.duplicateBindings kind (b ∩ result))
        else bindingsFold rest strict kind (result ∪ b)
termination_by ps _ _ _ => sizeOf ps

/-- The value loop of `MappingPattern.bindings` (the keys contribute no
bindings). -/
def bindingsFoldV : List (Value × Pattern) → Bool → Finset String →
    Except BindingsError (Finset String)
  | [], _, result => .ok result
  | (_, p) :: rest, strict, result =>
      match bindings p strict with
      | .error e => .error e
      | .ok b =>
        if strict = true ∧ (b ∩ result).Nonempty then
          .error (.duplicateBindings "mapping" (b ∩ result))
        else bindingsFoldV rest strict (result ∪ b)
termination_by entries _ _ => sizeOf entries

/-- The keyword part of `InstancePattern.bindings`' single chained loop,
continuing with the union accumulated over the positional part. -/
def bindingsFoldK : List (String × Pattern) → Bool → Finset String →
    Except BindingsError (Finset String)
  | [], _, result => .ok result
  | (_, p) :: rest, strict, result =>
      match bindings p strict with
      | .error e => .error e
      | .ok b =>
        if strict = true ∧ (b ∩ result).Nonempty then
          .error (.duplicateBindings "instance" (b ∩ result))
        else bindingsFoldK rest strict (result ∪ b)
termination_by kws _ _ => sizeOf kws

end

/-! ## Helper lemmas about the binding analyzer -/

/-- No bound-name set computed by the analyzer contains the wildcard `"_"`:
`VariablePattern.bindings` and `WalrusPattern.bindings` both exclude it. -/
theorem bindings_no_underscore :
    ∀ p strict s, bindings p strict = .ok s → "_" ∉ s := by
  refine bindings.induct
    (fun p strict => ∀ s, bindings p strict = .ok s → "_" ∉ s)
    (fun kws strict acc => "_" ∉ acc → ∀ s, bindingsFoldK kws strict acc = .ok s → "_" ∉ s)
    (fun entries strict acc =>
      "_" ∉ acc → ∀ s, bindingsFoldV entries strict acc = .ok s → "_" ∉ s)
    (fun ps strict kind acc =>
      "_" ∉ acc → ∀ s, bindingsFold ps strict kind acc = .ok s → "_" ∉ s)
    (fun ps strict i acc => "_" ∉ acc → ∀ s, bindingsAlts ps strict i acc = .ok s → "_" ∉ s)
    ?_ ?_ ?_ ?_ ?_ ?_ ?_ ?_ ?_ ?_ ?_ ?_ ?_ ?_ ?_ ?_ ?_ ?_ ?_ ?_ ?_ ?_ ?_ ?_ ?_ ?_ ?_ ?_ ?_ ?_
  · intro c strict s h
    simp [bindings] at h
    simp [← h]
  · intro strict s h
    simp [bindings] at h
    simp [← h]
  · intro strict p rest e he _ s h
    simp [bindings, he] at h
  · intro strict p rest result hres ih1 ih5 s h
    simp [bindings, hres] at h
    exact ih5 (ih1 result hres) s h
  · intro name strict s h
    rcases eq_or_ne name "_" with hn | hn
    · simp [bindings, hn] at h
      simp [← h]
    · simp [bindings, hn] at h
      simp [← h, Finset.mem_singleton]
      exact fun hh => hn hh.symm
  · intro p cls strict ih s h
    simp [bindings] at h
    exact ih s h
  · intro ps strict ih s h
    simp [bindings] at h
    exact ih (by simp) s h
  · intro entries strict ih s h
    simp [bindings] at h
    exact ih (by simp) s h
  · intro cls posargs kwargs strict e he _ s h
    simp [bindings, he] at h
  · intro cls posargs kwargs strict result hres ih4 ih2 s h
    simp [bindings, hres] at h
    exact ih2 (ih4 (by simp) result hres) s h
  · intro name p strict e he _ s h
    simp [bindings, he] at h
  · intro name p strict result hres hne hcond _ s h
    obtain ⟨hstrict, hmem⟩ := hcond
    subst hstrict
    simp [bindings, hres, hne, hmem] at h
  · intro name p strict result hres hne hcond ih s h
    simp [bindings, hres, hne, hcond] at h
    subst h
    simp only [Finset.mem_union, Finset.mem_singleton]
    rintro (hmem | hmem)
    · exact ih result hres hmem
    · exact absurd hmem.symm (by simpa using hne)
  · intro name p strict result hres hne ih s h
    simp [bindings, hres, hne] at h
    exact h ▸ ih result hres
  · intro strict result hacc s h
    simp [bindingsFoldK] at h
    exact h ▸ hacc
  · intro n p rest strict result e he _ hacc s h
    simp [bindingsFoldK, he] at h
  · intro n p rest strict result b hres hcond _ hacc s h
    obtain ⟨hstrict, hdup⟩ := hcond
    subst hstrict
    simp [bindingsFoldK, hres, hdup] at h
  · intro n p rest strict result b hres hcond ih ihrec hacc s h
    simp [bindingsFoldK, hres, hcond] at h
    refine ihrec ?_ s h
    intro hmem
    rcases Finset.mem_union.mp hmem with hh | hh
    exacts [hacc hh, ih b hres hh]
  · intro strict result hacc s h
    simp [bindingsFoldV] at h
    exact h ▸ hacc
  · intro k p rest strict result e he _ hacc s h
    simp [bindingsFoldV, he] at h
  · intro k p rest strict result b hres hcond _ hacc s h
    obtain ⟨hstrict, hdup⟩ := hcond
    subst hstrict
    simp [bindingsFoldV, hres, hdup] at h
  · intro k p rest strict result b hres hcond ih ihrec hacc s h
    simp [bindingsFoldV, hres, hcond] at h
    refine ihrec ?_ s h
    intro hmem
    rcases Finset.mem_union.mp hmem with hh | hh
    exacts [hacc hh, ih b hres hh]
  · intro strict kind result hacc s h
    simp [bindingsFold] at h
    exact h ▸ hacc
  · intro p rest strict kind result e he _ hacc s h
    simp [bindingsFold, he] at h
  · intro p rest strict kind result b hres hcond _ hacc s h
    obtain ⟨hstrict, hdup⟩ := hcond
    subst hstrict
    simp [bindingsFold, hres, hdup] at h
  · intro p rest strict kind result b hres hcond ih ihrec hacc s h
    simp [bindingsFold, hres, hcond] at h
    refine ihrec ?_ s h
    intro hmem
    rcases Finset.mem_union.mp hmem with hh | hh
    exacts [hacc hh, ih b hres hh]
  · intro strict i result hacc s h
    simp [bindingsAlts] at h
    exact h ▸ hacc
  · intro p rest strict i result e he _ hacc s h
    simp [bindingsAlts, he] at h
  · intro p rest strict i result b hres hcond _ hacc s h
    obtain ⟨hstrict, hner⟩ := hcond
    subst hstrict
    simp [bindingsAlts, hres, hner] at h
  · intro p rest strict i result b hres hcond ih ihrec hacc s h
    simp [bindingsAlts, hres, hcond] at h
    refine ihrec ?_ s h
    intro hmem
    rcases Finset.mem_union.mp hmem with hh | hh
    exacts [hacc hh, ih b hres hh]

/-- The fold `bindingsFold` over an appended child list runs the first part and, on
success, continues over the second part from the accumulated union. -/
theorem bindingsFold_append (l₁ l₂ : List Pattern) (strict : Bool) (kind : String)
    (acc : Finset String) :
    bindingsFold (l₁ ++ l₂) strict kind acc =
      match bindingsFold l₁ strict kind acc with
      | .error e => .error e
      | .ok u => bindingsFold l₂ strict kind u := by
  induction l₁ generalizing acc with
  | nil => simp [bindingsFold]
  | cons p rest ih =>
    simp only [List.cons_append, bindingsFold]
    cases hb : bindings p strict with
    | error e => simp
    | ok b =>
      by_cases hc : strict = true ∧ (b ∩ acc).Nonempty
      · simp [hc]
      · simp [hc, ih]

/-- The fold `bindingsFoldV` (mapping entries) over an appended entry list, same
split law as `bindingsFold_append`. -/
theorem bindingsFoldV_append (l₁ l₂ : List (Value × Pattern)) (strict : Bool)
    (acc : Finset String) :
    bindingsFoldV (l₁ ++ l₂) strict acc =
      match bindingsFoldV l₁ strict acc with
      | .error e => .error e
      | .ok u => bindingsFoldV l₂ strict u := by
  induction l₁ generalizing acc with
  | nil => simp [bindingsFoldV]
  | cons kp rest ih =>
    obtain ⟨k, p⟩ := kp
    simp only [List.cons_append, bindingsFoldV]
    cases hb : bindings p strict with
    | error e => simp
    | ok b =>
      by_cases hc : strict = true ∧ (b ∩ acc).Nonempty
      · simp [hc]
      · simp [hc, ih]

/-- When every remaining arm binds exactly the running set `s`, the arm
loop of `AlternativesPattern.bindings` returns `s`. -/
theorem bindingsAlts_agree (ps : List Pattern) (i : Nat) (s : Finset String)
    (h : ∀ p ∈ ps, bindings p true = .ok s) : bindingsAlts ps true i s = .ok s := by
  induction ps generalizing i with
  | nil => simp [bindingsAlts]
  | cons p rest ih =>
    simp [bindingsAlts, h p (by simp)]
    exact ih _ fun q hq => h q (by simp [hq])

/-- When the arms before `q` all bind the running set `s` and `q` binds a
different set, the arm loop raises `InconsistentBindings` at `q`'s index,
carrying both sets and their symmetric difference. -/
theorem bindingsAlts_offender (pre : List Pattern) (q : Pattern) (rest : List Pattern)
    (i : Nat) (s sq : Finset String)
    (hpre : ∀ p ∈ pre, bindings p true = .ok s)
    (hq : bindings q true = .ok sq) (hne : sq ≠ s) :
    bindingsAlts (pre ++ q :: rest) true i s =
      .error (.inconsistentBindings (i + pre.length) s sq ((sq \ s) ∪ (s \ sq))) := by
  induction pre generalizing i with
  | nil => simp [bindingsAlts, hq, hne]
  | cons p pre' ih =>
    simp only [List.cons_append, bindingsAlts, hpre p (by simp)]
    rw [show i + (p :: pre').length = (i + 1) + pre'.length by simp; omega]
    simpa [Finset.union_self] using ih (i + 1) (fun r hr => hpre r (by simp [hr]))

/-- When every arm fails, the arm loop of `AlternativesPattern.match`
returns the no-match result. -/
theorem matchAlts_all_none (ps : List Pattern) (x : Value)
    (h : ∀ p ∈ ps, matchP p x = .ok Option.none) : matchAlts ps x = .ok Option.none := by
  induction ps with
  | nil => simp [matchAlts]
  | cons p rest ih =>
    simp [matchAlts, h p (by simp)]
    exact ih fun q hq => h q (by simp [hq])

/-- Conversely, a no-match result from the arm loop means every arm
failed. -/
theorem matchAlts_none_all (ps : List Pattern) (x : Value)
    (h : matchAlts ps x = .ok Option.none) : ∀ p ∈ ps, matchP p x = .ok Option.none := by
  induction ps with
  | nil => simp
  | cons p rest ih =>
    intro q hq
    cases hm : matchP p x with
    | error e => simp [matchAlts, hm] at h
    | ok m =>
      cases m with
      | some b => simp [matchAlts, hm] at h
      | none =>
        rcases List.mem_cons.mp hq with rfl | hq'
        · exact hm
        · exact ih (by simpa [matchAlts, hm] using h) q hq'

/-- Evaluation lemma: Python `==` on two int values is integer equality. -/
theorem pyEq_int_int (a b : Int) : pyEq (.int a) (.int b) = (a == b) := by
  rw [pyEq]
  · show ((a : Rat) == (b : Rat)) = (a == b)
    rw [Bool.eq_iff_iff]
    simp [beq_iff_eq, Int.cast_inj]
  all_goals intros
  all_goals simp_all

/-! ## Claim theorems -/

/-- C1 counterexample: on the code, `match(Variable("_"), 0)` returns the
binding dict `{"_": 0}` — `VariablePattern.match` returns
`{self.name: x}` unconditionally — not the empty dict `{}` the claim
demands for the wildcard. -/
theorem variable_wildcard_match_counterexample :
    matchP (.VariablePattern "_") (.int 0) = .ok (some [("_", .int 0)]) ∧
    matchP (.VariablePattern "_") (.int 0) ≠ .ok (some []) := by
  constructor
  · simp [matchP]
  · simp [matchP]

/-- C1 (amended): Variable-pattern matching is total and always returns
the single binding `{name: value}`, including for the wildcard name
`"_"`; the wildcard is special only to the `bindings` analyzer, which
reports the empty name set for `Variable("_")`. -/
theorem variable_match_total :
    (∀ name v, matchP (.VariablePattern name) v = .ok (some [(name, v)])) ∧
    (∀ strict, bindings (.VariablePattern "_") strict = .ok ∅) := by
  constructor
  · intro name v
    simp [matchP]
  · intro strict
    simp [bindings]

/-- C2: `InstancePattern.match` on a non-dataclass candidate of a
conforming type (`0` against `InstancePattern(int, [], {})`) raises
`TypeError` instead of returning the no-match result:
`dataclasses.fields` raises `TypeError` for a non-dataclass, and the
surrounding `try/except` catches only `RuntimeError`, so this data-shape
mismatch escapes as an exception. -/
theorem instance_match_nondataclass_raises :
    matchP (.InstancePattern .int [] []) (.int 0) = .error .typeError := by
  simp [matchP, isInstance, pyIsInstance, typeOf, fieldsTry, dataclassFields]

/-- C3: Constant-pattern matching returns the empty binding dict exactly
when the candidate passes the `_is_instance` subtype test against the
constant's type and compares `==`-equal to the constant; in every other
case it returns the no-match result.  The two closed conjuncts witness
the asymmetric numeric rule: an int candidate is accepted for a float
constant, but not vice versa. -/
theorem constant_match_iff :
    (∀ c v, matchP (.ConstantPattern c) v = .ok (some []) ↔
       (isInstance v (typeOf c) = true ∧ pyEq v c = true)) ∧
    (∀ c v, ¬(isInstance v (typeOf c) = true ∧ pyEq v c = true) →
       matchP (.ConstantPattern c) v = .ok Option.none) ∧
    matchP (.ConstantPattern (.float 1)) (.int 1) = .ok (some []) ∧
    matchP (.ConstantPattern (.int 1)) (.float 1) = .ok Option.none := by
  refine ⟨?_, ?_, ?_, ?_⟩
  · intro c v
    simp only [matchP]
    by_cases h1 : isInstance v (typeOf c) = true
    · by_cases h2 : pyEq v c = true
      · simp [h1, h2]
      · have h2' : pyEq v c = false := by simpa using h2
        simp [h1, h2']
    · have h1' : isInstance v (typeOf c) = false := by simpa using h1
      simp [h1']
  · intro c v h
    simp only [matchP]
    cases hf : (isInstance v (typeOf c) && pyEq v c) with
    | true => exact absurd (by simpa using hf) h
    | false => simp [hf]
  · simp [matchP, isInstance, pyIsInstance, typeOf, pyEq, numView]
  · simp [matchP, isInstance, pyIsInstance, typeOf, pyEq, numView]

/-- Witness for `constant_match_iff` at concrete inputs: `Constant(42)`
matches `42` with the empty binding dict and rejects the string `"42"`. -/
theorem constant_match_iff_witness :
    matchP (.ConstantPattern (.int 42)) (.int 42) = .ok (some []) ∧
    matchP (.ConstantPattern (.int 42)) (.str "42") = .ok Option.none :=
  ⟨(constant_match_iff.1 (.int 42) (.int 42)).mpr
      (by constructor <;> simp [isInstance, pyIsInstance, typeOf, pyEq, numView]),
   constant_match_iff.2.1 (.int 42) (.str "42")
      (by simp [isInstance, pyIsInstance, typeOf])⟩

/-- C4: `bindings(strict=False)` can still raise.  The arm loop of
`AlternativesPattern.bindings` calls `p.bindings()` on every arm past the
first — `strict` defaults to `True` there — so the non-strict call on
`Alternatives([Constant(0), Sequence([Variable("x"), Variable("x")])])`
raises `DuplicateBindings` out of the second arm instead of returning the
union `{"x"}`. -/
theorem nonstrict_bindings_raises :
    bindings (.AlternativesPattern [.ConstantPattern (.int 0),
        .SequencePattern [.VariablePattern "x", .VariablePattern "x"]]) false
      = .error (.duplicateBindings "sequence" {"x"}) := by
  simp [bindings, bindingsAlts, bindingsFold]

/-- C5: Sequence-pattern matching rejects every `str`/`bytes` candidate
(even at matching length), rejects any candidate of the wrong length, and
otherwise recurses positionally: a failing element aborts with the
no-match result and a succeeding element merges its bindings into the
running dict, as in the spec's example
`match(Sequence([Variable("x"), Variable("y")]), [1, 2])`. -/
theorem sequence_match_spec :
    (∀ ps s, matchP (.SequencePattern ps) (.str s) = .ok Option.none) ∧
    (∀ ps bs, matchP (.SequencePattern ps) (.bytes bs) = .ok Option.none) ∧
    (∀ ps xs, xs.length ≠ ps.length →
       matchP (.SequencePattern ps) (.list xs) = .ok Option.none) ∧
    (∀ ps xs, xs.length = ps.length →
       matchP (.SequencePattern ps) (.list xs) = matchSeq ps xs []) ∧
    (∀ p ps x xs ms, matchP p x = .ok Option.none →
       matchSeq (p :: ps) (x :: xs) ms = .ok Option.none) ∧
    (∀ p ps x xs ms b, matchP p x = .ok (some b) →
       matchSeq (p :: ps) (x :: xs) ms = matchSeq ps xs (dictUpdate ms b)) ∧
    matchP (.SequencePattern [.VariablePattern "x", .VariablePattern "y"])
        (.list [.int 1, .int 2]) = .ok (some [("x", .int 1), ("y", .int 2)]) ∧
    (∀ ps xs, xs.length ≠ ps.length →
       matchP (.SequencePattern ps) (.tuple xs) = .ok Option.none) ∧
    (∀ ps xs, xs.length = ps.length →
       matchP (.SequencePattern ps) (.tuple xs) = matchSeq ps xs []) := by
  refine ⟨?_, ?_, ?_, ?_, ?_, ?_, ?_, ?_, ?_⟩
  · intro ps s
    simp [matchP, isPySequence, isText]
  · intro ps bs
    simp [matchP, isPySequence, isText]
  · intro ps xs h
    simp [matchP, isPySequence, isText, seqItems, h]
  · intro ps xs h
    simp [matchP, isPySequence, isText, seqItems, h]
  · intro p ps x xs ms h
    simp [matchSeq, h]
  · intro p ps x xs ms b h
    simp [matchSeq, h]
  · simp [matchP, matchSeq, isPySequence, isText, seqItems, dictUpdate, dictSet]
  · intro ps xs h
    simp [matchP, isPySequence, isText, seqItems, h]
  · intro ps xs h
    simp [matchP, isPySequence, isText, seqItems, h]

/-- Witness for `sequence_match_spec`: the wrong-length and per-element
laws applied at concrete inputs. -/
theorem sequence_match_spec_witness :
    matchP (.SequencePattern [.VariablePattern "x", .VariablePattern "y"])
        (.list [.int 1, .int 2, .int 3]) = .ok Option.none ∧
    matchSeq [.ConstantPattern (.int 9)] [.int 9] [] =
      matchSeq [] [] (dictUpdate [] []) := by
  constructor
  · exact sequence_match_spec.2.2.1 [.VariablePattern "x", .VariablePattern "y"]
      [.int 1, .int 2, .int 3] (by simp)
  · exact sequence_match_spec.2.2.2.2.2.1 (.ConstantPattern (.int 9)) [] (.int 9) [] [] []
      (by simp [matchP, isInstance, pyIsInstance, typeOf, pyEq_int_int])

/-- C6: Instance-pattern matching on a dataclass candidate of a
conforming type: more positional sub-patterns than declared fields is an
immediate no-match; per field, an entirely absent attribute is a
no-match, while an attribute present with a falsy value (e.g. `0`) is
still tested against its sub-pattern; a sub-pattern failure aborts, and
otherwise the per-field bindings are merged.  The concrete conjuncts run
a two-field record `P(x, y)`: missing `y` fails, `y = 0` matches and is
bound, and a failing sub-pattern aborts. -/
theorem instance_match_fields :
    (∀ cn fns attrs posargs kwargs, fns.length < posargs.length →
       matchP (.InstancePattern (.cls cn) posargs kwargs) (.record cn fns attrs)
         = .ok Option.none) ∧
    (∀ f fs p ps x ms, getAttr x f = Option.none →
       matchZip (f :: fs) (p :: ps) x ms = .ok Option.none) ∧
    (∀ f fs p ps x ms v, getAttr x f = some v →
       matchZip (f :: fs) (p :: ps) x ms =
         (match matchP p v with
          | .error e => .error e
          | .ok Option.none => .ok Option.none
          | .ok (some m) => matchZip fs ps x (dictUpdate ms m))) ∧
    matchP (.InstancePattern (.cls "P") [.VariablePattern "a", .VariablePattern "b"] [])
        (.record "P" ["x", "y"] [("x", .int 1)]) = .ok Option.none ∧
    matchP (.InstancePattern (.cls "P") [.VariablePattern "a", .VariablePattern "b"] [])
        (.record "P" ["x", "y"] [("x", .int 1), ("y", .int 0)])
      = .ok (some [("a", .int 1), ("b", .int 0)]) ∧
    matchP (.InstancePattern (.cls "P") [.ConstantPattern (.int 5)] [])
        (.record "P" ["x", "y"] [("x", .int 1), ("y", .int 0)]) = .ok Option.none := by
  refine ⟨?_, ?_, ?_, ?_, ?_, ?_⟩
  · intro cn fns attrs posargs kwargs h
    simp [matchP, isInstance, pyIsInstance, typeOf, fieldsTry, dataclassFields, h]
  · intro f fs p ps x ms h
    simp [matchZip, h]
  · intro f fs p ps x ms v h
    simp [matchZip, h]
  · simp [matchP, matchZip, matchKw, isInstance, pyIsInstance, typeOf, fieldsTry,
      dataclassFields, getAttr, lookupAttr, dictUpdate, dictSet]
  · simp [matchP, matchZip, matchKw, isInstance, pyIsInstance, typeOf, fieldsTry,
      dataclassFields, getAttr, lookupAttr, dictUpdate, dictSet]
  · simp [matchP, matchZip, matchKw, isInstance, pyIsInstance, typeOf, fieldsTry,
      dataclassFields, getAttr, lookupAttr, dictUpdate, dictSet, pyEq_int_int]

/-- Witness for `instance_match_fields`: the field-count law on a
three-pattern match against a two-field record, and the absent-attribute
law on a record with no attributes set. -/
theorem instance_match_fields_witness :
    matchP (.InstancePattern (.cls "P")
        [.VariablePattern "a", .VariablePattern "b", .VariablePattern "c"] [])
        (.record "P" ["x", "y"] []) = .ok Option.none ∧
    matchZip ["x"] [.VariablePattern "a"] (.record "P" ["x", "y"] []) []
      = .ok Option.none := by
  constructor
  · exact instance_match_fields.1 "P" ["x", "y"] []
      [.VariablePattern "a", .VariablePattern "b", .VariablePattern "c"] [] (by simp)
  · exact instance_match_fields.2.1 "x" [] (.VariablePattern "a") []
      (.record "P" ["x", "y"] []) [] (by simp [getAttr, lookupAttr])

/-- C7: Alternatives-pattern matching is first-match: a matching head arm
decides the result whatever the later arms are, a failing head defers to
the remaining arms unchanged, and the whole alternation yields the
no-match result precisely when every arm fails.  The concrete conjuncts
are the spec's `match(Alternatives([Constant(1), Constant(2),
Constant(3)]), v)` at `v = 2` and `v = 4`. -/
theorem alternatives_first_match :
    (∀ p rest x b, matchP p x = .ok (some b) →
       matchP (.AlternativesPattern (p :: rest)) x = .ok (some b)) ∧
    (∀ p rest x, matchP p x = .ok Option.none →
       matchP (.AlternativesPattern (p :: rest)) x = matchP (.AlternativesPattern rest) x) ∧
    (∀ ps x, matchP (.AlternativesPattern ps) x = .ok Option.none ↔
       ∀ p ∈ ps, matchP p x = .ok Option.none) ∧
    matchP (.AlternativesPattern [.ConstantPattern (.int 1), .ConstantPattern (.int 2),
        .ConstantPattern (.int 3)]) (.int 2) = .ok (some []) ∧
    matchP (.AlternativesPattern [.ConstantPattern (.int 1), .ConstantPattern (.int 2),
        .ConstantPattern (.int 3)]) (.int 4) = .ok Option.none := by
  refine ⟨?_, ?_, ?_, ?_, ?_⟩
  · intro p rest x b h
    simp [matchP, matchAlts, h]
  · intro p rest x h
    simp [matchP, matchAlts, h]
  · intro ps x
    constructor
    · intro h
      exact matchAlts_none_all ps x (by simpa [matchP] using h)
    · intro h
      simpa [matchP] using matchAlts_all_none ps x h
  · simp [matchP, matchAlts, isInstance, pyIsInstance, typeOf, pyEq_int_int]
  · simp [matchP, matchAlts, isInstance, pyIsInstance, typeOf, pyEq_int_int]

/-- Witness for `alternatives_first_match`: an irrefutable head arm wins
with its bindings, and a failing head defers to the remaining arms. -/
theorem alternatives_first_match_witness :
    matchP (.AlternativesPattern [.VariablePattern "v", .ConstantPattern (.int 9)]) (.int 7)
      = .ok (some [("v", .int 7)]) ∧
    matchP (.AlternativesPattern [.ConstantPattern (.int 9), .VariablePattern "v"]) (.int 7)
      = matchP (.AlternativesPattern [.VariablePattern "v"]) (.int 7) := by
  constructor
  · exact alternatives_first_match.1 (.VariablePattern "v") [.ConstantPattern (.int 9)]
      (.int 7) [("v", .int 7)] (by simp [matchP])
  · exact alternatives_first_match.2.1 (.ConstantPattern (.int 9)) [.VariablePattern "v"]
      (.int 7) (by simp [matchP, isInstance, pyIsInstance, typeOf, pyEq_int_int])

/-- C8: strict `bindings` on an alternation returns the common name set
when every arm binds exactly the first arm's set, and raises
`InconsistentBindings` at the first arm whose set differs — missing and
extra names alike — carrying that arm's index, both sets, and their
symmetric difference. -/
theorem alternatives_bindings_strict :
    (∀ p rest s, bindings p true = .ok s → (∀ q ∈ rest, bindings q true = .ok s) →
       bindings (.AlternativesPattern (p :: rest)) true = .ok s) ∧
    (∀ p pre q rest s sq, bindings p true = .ok s →
       (∀ r ∈ pre, bindings r true = .ok s) →
       bindings q true = .ok sq → sq ≠ s →
       bindings (.AlternativesPattern (p :: (pre ++ q :: rest))) true =
         .error (.inconsistentBindings (1 + pre.length) s sq ((sq \ s) ∪ (s \ sq)))) := by
  constructor
  · intro p rest s hp hrest
    simp only [bindings, hp]
    exact bindingsAlts_agree rest 1 s hrest
  · intro p pre q rest s sq hp hpre hq hne
    simp only [bindings, hp]
    simpa [Nat.add_comm] using bindingsAlts_offender pre q rest 1 s sq hpre hq hne

/-- Witness for `alternatives_bindings_strict`: `x | y` raises
`InconsistentBindings` at arm 1 with the symmetric difference of `{x}`
and `{y}`. -/
theorem alternatives_bindings_strict_witness :
    bindings (.AlternativesPattern [.VariablePattern "x", .VariablePattern "y"]) true =
      .error (.inconsistentBindings 1 {"x"} {"y"} (({"y"} \ {"x"}) ∪ ({"x"} \ {"y"}))) := by
  have := alternatives_bindings_strict.2 (.VariablePattern "x") [] (.VariablePattern "y") []
    {"x"} {"y"} (by simp [bindings]) (by simp) (by simp [bindings]) (by simp)
  simpa using this

/-- C9: strict `bindings` raises `DuplicateBindings` in the composite
patterns exactly at a pairwise step of the left-to-right union where a
child's name set meets the union of its earlier siblings' sets — the
error names the offending intersection, and a disjoint step proceeds
with the enlarged union — and a walrus pattern whose own name already
occurs in its inner pattern's bound names likewise raises
`DuplicateBindings`. -/
theorem duplicate_bindings_strict :
    (∀ pre q rest u sq, bindingsFold pre true "sequence" ∅ = .ok u →
       bindings q true = .ok sq → (sq ∩ u).Nonempty →
       bindings (.SequencePattern (pre ++ q :: rest)) true =
         .error (.duplicateBindings "sequence" (sq ∩ u))) ∧
    (∀ pre q rest u sq, bindingsFold pre true "sequence" ∅ = .ok u →
       bindings q true = .ok sq → sq ∩ u = ∅ →
       bindings (.SequencePattern (pre ++ q :: rest)) true =
         bindingsFold rest true "sequence" (u ∪ sq)) ∧
    (∀ pre k q rest u sq, bindingsFoldV pre true ∅ = .ok u →
       bindings q true = .ok sq → (sq ∩ u).Nonempty →
       bindings (.MappingPattern (pre ++ (k, q) :: rest)) true =
         .error (.duplicateBindings "mapping" (sq ∩ u))) ∧
    (∀ pre q rest kwargs cls u sq, bindingsFold pre true "instance" ∅ = .ok u →
       bindings q true = .ok sq → (sq ∩ u).Nonempty →
       bindings (.InstancePattern cls (pre ++ q :: rest) kwargs) true =
         .error (.duplicateBindings "instance" (sq ∩ u))) ∧
    (∀ name p s, bindings p true = .ok s → name ∈ s →
       bindings (.WalrusPattern name p) true = .error .duplicateBindingsWalrus) := by
  refine ⟨?_, ?_, ?_, ?_, ?_⟩
  · intro pre q rest u sq hpre hq hmeet
    simp only [bindings, bindingsFold_append, hpre]
    simp [bindingsFold, hq, hmeet]
  · intro pre q rest u sq hpre hq hdisj
    simp only [bindings, bindingsFold_append, hpre]
    simp [bindingsFold, hq, hdisj]
  · intro pre k q rest u sq hpre hq hmeet
    simp only [bindings, bindingsFoldV_append, hpre]
    simp [bindingsFoldV, hq, hmeet]
  · intro pre q rest kwargs cls u sq hpre hq hmeet
    simp only [bindings, bindingsFold_append, hpre]
    simp [bindingsFold, hq, hmeet]
  · intro name p s hp hmem
    have hname : name ≠ "_" := fun hn => bindings_no_underscore p true s hp (hn ▸ hmem)
    have hbne : (name != "_") = true := by simpa using hname
    simp [bindings, hp, hbne, hmem]

/-- Witness for `duplicate_bindings_strict`: `[x, x]` raises
`DuplicateBindings` naming `{x}`, and `a := a` raises the walrus
`DuplicateBindings`. -/
theorem duplicate_bindings_strict_witness :
    bindings (.SequencePattern [.VariablePattern "x", .VariablePattern "x"]) true =
      .error (.duplicateBindings "sequence" {"x"}) ∧
    bindings (.WalrusPattern "a" (.VariablePattern "a")) true =
      .error .duplicateBindingsWalrus := by
  constructor
  · have := duplicate_bindings_strict.1 [.VariablePattern "x"] (.VariablePattern "x") []
      {"x"} {"x"} (by simp [bindingsFold, bindings]) (by simp [bindings]) (by simp)
    simpa using this
  · exact duplicate_bindings_strict.2.2.2.2 "a" (.VariablePattern "a") {"a"}
      (by simp [bindings]) (by simp)

/-- C10: an empty alternation is refutable everywhere — `match` returns
the no-match result for every candidate — while `bindings` returns the
empty name set in both strict and non-strict mode without raising. -/
theorem empty_alternatives :
    (∀ v, matchP (.AlternativesPattern []) v = .ok Option.none) ∧
    (∀ strict, bindings (.AlternativesPattern []) strict = .ok ∅) := by
  constructor
  · intro v
    simp [matchP, matchAlts]
  · intro strict
    simp [bindings]

end Patma
